import Mathlib

/-!
Verification development for the DensePose-ESP32 CSI preprocessing pipeline.

The definitions below are a shallow embedding of the Python sources:
- `models/training/train_pose_model.py` (`CSIDataPreprocessor.parse_sample`,
  `CSIDataPreprocessor.create_windows`),
- `tools/analyze_csi.py` (`CSIAnalyzer.compute_features`),
- `tools/generate_synthetic_data.py` (`SyntheticCSIGenerator`).

Floating point numbers are modelled as real numbers.  NumPy library calls
(`np.mean`, `np.std`, `np.pad`, `np.clip`, `np.median`, `np.percentile`,
the `np.random` distributions and `np.random.shuffle`) are modelled by
their mathematical meaning; the pseudo-random source is an explicit stream
of draws threaded through every generator, which is exactly how a seeded
NumPy `RandomState` behaves.
-/

/-- One CSI sample record, as it appears on the wire
(`{"ts","rssi","num","amp","phase"?,"label"?,"description"?}`).
Optional keys are `Option`; `dict.get` defaults are applied at use sites,
mirroring the Python code. -/
structure CSISample where
  ts : Option ℤ
  rssi : Option ℝ
  num : Option ℕ
  amp : List ℝ
  phase : Option (List ℝ)
  label : Option String
  description : Option String

/-- `np.mean` of a list (sum divided by length). -/
noncomputable def npMean (l : List ℝ) : ℝ := l.sum / l.length

/-- `np.var` of a list: population variance (NumPy default `ddof=0`). -/
noncomputable def npVar (l : List ℝ) : ℝ :=
  ((l.map (fun x => (x - npMean l) ^ 2)).sum) / l.length

/-- `np.std` of a list: square root of the population variance. -/
noncomputable def npStd (l : List ℝ) : ℝ := Real.sqrt (npVar l)

/-- `np.pad(l, (0, k), 'constant')`: right-pad with `k` zeros.  NumPy raises
`ValueError` when the pad width is negative, modelled by `none`. -/
def npPad (l : List ℝ) (k : ℤ) : Option (List ℝ) :=
  if 0 ≤ k then some (l ++ List.replicate k.toNat 0) else none

/-- `np.clip(x, lo, hi)` on one scalar. -/
noncomputable def npClip (x lo hi : ℝ) : ℝ := max lo (min x hi)

/-- `np.clip(x, 0, None)` on one scalar (lower bound only). -/
noncomputable def npClipLo (x : ℝ) : ℝ := max 0 x

/-- Amplitude z-scoring as in `parse_sample` line 64:
`(amp - np.mean(amp)) / (np.std(amp) + 1e-6)`. -/
noncomputable def zscore (l : List ℝ) : List ℝ :=
  l.map (fun x => (x - npMean l) / (npStd l + 1 / 1000000))

/-- `CSIDataPreprocessor.parse_sample` (train_pose_model.py lines 50-71).
`S` is `self.num_subcarriers`.  The phase defaults to a zero vector of the
amplitude's length.  The pad-versus-truncate branch is selected by the
amplitude length alone; a negative phase pad width (phase longer than `S`
while the amplitude is shorter) is a NumPy `ValueError`, hence `none`. -/
noncomputable def parse_sample (S : ℕ) (sample : CSISample) : Option (List ℝ) :=
  let amp := sample.amp
  let phase := sample.phase.getD (List.replicate amp.length (0 : ℝ))
  if amp.length < S then
    match npPad amp ((S : ℤ) - amp.length), npPad phase ((S : ℤ) - phase.length) with
    | some amp2, some phase2 =>
        some (zscore amp2 ++ phase2.map (fun x => x / Real.pi))
    | _, _ => none
  else
    some (zscore (amp.take S) ++ (phase.take S).map (fun x => x / Real.pi))

/-- The spec's per-list pad/truncate rule, stated independently of the code:
right-pad with zeros when shorter than `S`, truncate to the first `S`
entries otherwise.  Used to compare `parse_sample` against the spec. -/
def padTruncSpec (S : ℕ) (l : List ℝ) : List ℝ :=
  if l.length < S then l ++ List.replicate (S - l.length) 0 else l.take S

/-- The fixed label table of `create_windows` (train_pose_model.py lines
84-91), with the `dict.get(label, 0)` default for unknown labels. -/
def label_map (l : String) : ℕ :=
  if l = "empty" then 0
  else if l = "present" then 1
  else if l = "moving" then 2
  else if l = "walking" then 3
  else if l = "sitting" then 4
  else if l = "standing" then 5
  else 0

/-- The distinct labels of a list in first-occurrence order (the key order
of a Python dict filled by insertion). -/
def labelKeys : List String → List String
  | [] => []
  | l :: rest => l :: labelKeys (rest.filter (fun x => x ≠ l))
termination_by l => l.length
decreasing_by
  simp only [List.length_cons]
  exact Nat.lt_succ_of_le (List.length_filter_le _ _)

/-- Grouping of `(sample, label)` pairs by label, preserving first-occurrence
key order and arrival order inside each group — the semantics of the
`by_label` dict built in `create_windows` lines 93-98. -/
def groupByLabel (pairs : List (CSISample × String)) : List (String × List CSISample) :=
  (labelKeys (pairs.map Prod.snd)).map
    (fun l => (l, (pairs.filter (fun p => p.2 = l)).map Prod.fst))

/-- The stride-1 sliding windows of `create_windows` lines 106-108:
`range(len(features) - window_size + 1)` many slices `features[i:i+W]`.
`fs.length + 1 - W` is natural subtraction, i.e. `max(0, N - W + 1)`. -/
def slidingWindows {α : Type} (W : ℕ) (fs : List α) : List (List α) :=
  (List.range (fs.length + 1 - W)).map (fun i => (fs.drop i).take W)

/-- Mapping a fallible function over a list, failing on the first failure —
the behaviour of a Python list comprehension whose body may raise. -/
def mapOpt {α β : Type} (f : α → Option β) : List α → Option (List β)
  | [] => some []
  | x :: xs => do
    let y ← f x
    let ys ← mapOpt f xs
    pure (y :: ys)

/-- `CSIDataPreprocessor.create_windows` (train_pose_model.py lines 73-111).
`W` is `self.window_size`, `S` is `self.num_subcarriers`.  Samples are
zipped with their labels, grouped by label, each group's samples are parsed,
stride-1 windows are cut per group, and each window is paired with the
group's `label_map` id; groups are concatenated in dict-insertion order.
An exception escaping `parse_sample` aborts the call (`none`). -/
noncomputable def create_windows (W S : ℕ) (samples : List CSISample)
    (labels : List String) : Option (List (List (List ℝ)) × List ℕ) := do
  let groups := groupByLabel (samples.zip labels)
  let results ← mapOpt (fun g => do
      let features ← mapOpt (parse_sample S) g.2
      pure (slidingWindows W features, label_map g.1)) groups
  pure ((results.map Prod.fst).flatten,
        (results.map (fun r => List.replicate r.1.length r.2)).flatten)

/-- A sample that is well-formed in the sense of the spec's data model:
non-empty amplitude, and phase (when present) of the amplitude's length. -/
def wfSample (s : CSISample) : Prop :=
  s.amp ≠ [] ∧ (s.phase = none ∨ ∃ p, s.phase = some p ∧ p.length = s.amp.length)

/-- `np.min` of a non-empty list; NumPy raises on an empty array, which no
claim exercises, so the empty case carries a junk value `0`. -/
noncomputable def npMin : List ℝ → ℝ
  | [] => 0
  | a :: rest => rest.foldl min a

/-- `np.max` of a non-empty list; junk value `0` on the empty array. -/
noncomputable def npMax : List ℝ → ℝ
  | [] => 0
  | a :: rest => rest.foldl max a

/-- Insertion into a sorted list, the building block of the sort used to
model `np.median` and `np.percentile`. -/
noncomputable def sortedInsert (x : ℝ) : List ℝ → List ℝ
  | [] => [x]
  | y :: ys => if x ≤ y then x :: y :: ys else y :: sortedInsert x ys

/-- Ascending sort of a list of reals (insertion sort). -/
noncomputable def npSort (l : List ℝ) : List ℝ := l.foldr sortedInsert []

/-- `np.median`: middle element of the sorted list for odd length, average
of the two middle elements for even length; junk `0` on empty. -/
noncomputable def npMedian (l : List ℝ) : ℝ :=
  let s := npSort l
  if s.length = 0 then 0
  else if s.length % 2 = 1 then s.getD (s.length / 2) 0
  else (s.getD (s.length / 2 - 1) 0 + s.getD (s.length / 2) 0) / 2

/-- `np.percentile` with the default linear interpolation: position
`q/100 * (n-1)` in the sorted list, interpolated between its floor and
ceiling neighbours; junk `0` on empty. -/
noncomputable def npPercentile (l : List ℝ) (q : ℝ) : ℝ :=
  let s := npSort l
  if s.length = 0 then 0
  else
    let pos := q / 100 * ((s.length : ℝ) - 1)
    let lo := s.getD (⌊pos⌋).toNat 0
    let hi := s.getD (⌈pos⌉).toNat 0
    lo + (pos - (⌊pos⌋ : ℝ)) * (hi - lo)

/-- The named scalar descriptors produced for one sample by
`CSIAnalyzer.compute_features`. -/
structure PerSampleStatistics where
  amp_mean : ℝ
  amp_std : ℝ
  amp_var : ℝ
  amp_min : ℝ
  amp_max : ℝ
  amp_range : ℝ
  amp_median : ℝ
  amp_q25 : ℝ
  amp_q75 : ℝ
  phase_mean : ℝ
  phase_std : ℝ
  phase_var : ℝ
  rssi : ℝ
  num_subcarriers : ℕ

/-- `CSIAnalyzer.compute_features` (analyze_csi.py lines 38-65): statistics
of the raw, non-normalized amplitude; phase defaults to the empty list and
its statistics to `0` when empty; `rssi` defaults to `0` and `num` to the
amplitude length, per the `dict.get` calls. -/
noncomputable def compute_features (sample : CSISample) : PerSampleStatistics :=
  let amp := sample.amp
  let phase := sample.phase.getD []
  { amp_mean := npMean amp
    amp_std := npStd amp
    amp_var := npVar amp
    amp_min := npMin amp
    amp_max := npMax amp
    amp_range := npMax amp - npMin amp
    amp_median := npMedian amp
    amp_q25 := npPercentile amp 25
    amp_q75 := npPercentile amp 75
    phase_mean := if 0 < phase.length then npMean phase else 0
    phase_std := if 0 < phase.length then npStd phase else 0
    phase_var := if 0 < phase.length then npVar phase else 0
    rssi := sample.rssi.getD 0
    num_subcarriers := sample.num.getD amp.length }

/-- The pseudo-random source: an explicit stream of scalar draws with a
cursor.  A seeded NumPy `RandomState` is exactly such a deterministic
stream; every `np.random` call below consumes draws in program order. -/
structure RNG where
  stream : ℕ → ℝ
  idx : ℕ

/-- Consume one scalar draw. -/
def RNG.next (g : RNG) : ℝ × RNG :=
  (g.stream g.idx, ⟨g.stream, g.idx + 1⟩)

/-- `np.random.normal(mu, sigma)`: one draw, affinely transformed from the
stream's standard draw. -/
noncomputable def randNormal (mu sigma : ℝ) (g : RNG) : ℝ × RNG :=
  let (z, g1) := g.next
  (mu + sigma * z, g1)

/-- `np.random.normal(mu, sigma, n)`: a vector of `n` draws. -/
noncomputable def randNormalVec (mu sigma : ℝ) : ℕ → RNG → List ℝ × RNG
  | 0, g => ([], g)
  | n + 1, g =>
    let (x, g1) := randNormal mu sigma g
    let (xs, g2) := randNormalVec mu sigma n g1
    (x :: xs, g2)

/-- `np.random.randint(lo, hi)`: one integer in `[lo, hi)`, derived from the
next stream draw. -/
noncomputable def randInt (lo hi : ℤ) (g : RNG) : ℤ × RNG :=
  let (z, g1) := g.next
  (lo + ((⌊z⌋.natAbs : ℤ) % (hi - lo)), g1)

/-- `SyntheticCSIGenerator.generate_empty_room` (generate_synthetic_data.py
lines 36-65): amplitude `Normal(20.0, 1.5, S)` clipped at `0`, phase
`Normal(0, 0.05, S)` (no clipping), `ts = randint(100000, 999999)`,
`rssi = Normal(-50, 2)`. -/
noncomputable def generate_empty_room (S : ℕ) : ℕ → RNG → List CSISample × RNG
  | 0, g => ([], g)
  | n + 1, g =>
    let (ampRaw, g1) := randNormalVec 20.0 1.5 S g
    let amp := ampRaw.map npClipLo
    let (phase, g2) := randNormalVec 0 0.05 S g1
    let (ts, g3) := randInt 100000 999999 g2
    let (rssi, g4) := randNormal (-50) 2 g3
    let s : CSISample :=
      ⟨some ts, some rssi, some S, amp, some phase, some "empty",
       some "Empty room - no person present"⟩
    let (rest, g5) := generate_empty_room S n g4
    (s :: rest, g5)

/-- `SyntheticCSIGenerator.generate_person_present` (lines 67-96):
amplitude `Normal(25.0, 3.0, S)` clipped at `0`, phase `Normal(0, 0.2, S)`
(no clipping), `rssi = Normal(-42, 3)`. -/
noncomputable def generate_person_present (S : ℕ) : ℕ → RNG → List CSISample × RNG
  | 0, g => ([], g)
  | n + 1, g =>
    let (ampRaw, g1) := randNormalVec 25.0 3.0 S g
    let amp := ampRaw.map npClipLo
    let (phase, g2) := randNormalVec 0 0.2 S g1
    let (ts, g3) := randInt 100000 999999 g2
    let (rssi, g4) := randNormal (-42) 3 g3
    let s : CSISample :=
      ⟨some ts, some rssi, some S, amp, some phase, some "present",
       some "Person present, sitting or standing still"⟩
    let (rest, g5) := generate_person_present S n g4
    (s :: rest, g5)

/-- The body and loop of `SyntheticCSIGenerator.generate_moving` (lines
98-133), with the sample index `i` and the accumulating `phase_offset`
threaded explicitly: amplitude `Normal(25 + 5*sin(2*pi*i/20), 4.0, S)`
clipped at `0`; `phase_offset += Normal(0, 0.1)`; phase
`Normal(phase_offset, 0.3, S)` clipped to `[-pi, pi]`;
`rssi = Normal(-40, 5)`. -/
noncomputable def generate_moving_aux (S : ℕ) : ℕ → ℕ → ℝ → RNG → List CSISample × RNG
  | 0, _, _, g => ([], g)
  | n + 1, i, offset, g =>
    let base := 25.0 + 5.0 * Real.sin (2 * Real.pi * i / 20)
    let (ampRaw, g1) := randNormalVec base 4.0 S g
    let amp := ampRaw.map npClipLo
    let (d, g2) := randNormal 0 0.1 g1
    let offset2 := offset + d
    let (phaseRaw, g3) := randNormalVec offset2 0.3 S g2
    let phase := phaseRaw.map (fun x => npClip x (-Real.pi) Real.pi)
    let (ts, g4) := randInt 100000 999999 g3
    let (rssi, g5) := randNormal (-40) 5 g4
    let s : CSISample :=
      ⟨some ts, some rssi, some S, amp, some phase, some "moving",
       some "Person moving around"⟩
    let (rest, g6) := generate_moving_aux S n (i + 1) offset2 g5
    (s :: rest, g6)

/-- `SyntheticCSIGenerator.generate_moving`: the loop starts at index `0`
with `phase_offset = 0.0`. -/
noncomputable def generate_moving (S n : ℕ) (g : RNG) : List CSISample × RNG :=
  generate_moving_aux S n 0 0 g

/-- The body and loop of `SyntheticCSIGenerator.generate_walking` (lines
135-170), with the sample index `i` threaded explicitly:
`theta = 2*pi*i/10`; amplitude
`Normal(25 + 8*sin(theta) + 3*sin(2*theta), 3.5, S)` clipped at `0`; phase
`Normal(0, 0.25 + 0.15*sin(theta), S)` clipped to `[-pi, pi]`;
`rssi = Normal(-38, 4)`. -/
noncomputable def generate_walking_aux (S : ℕ) : ℕ → ℕ → RNG → List CSISample × RNG
  | 0, _, g => ([], g)
  | n + 1, i, g =>
    let theta := 2 * Real.pi * i / 10
    let ampMod := 8.0 * Real.sin theta + 3.0 * Real.sin (2 * theta)
    let (ampRaw, g1) := randNormalVec (25.0 + ampMod) 3.5 S g
    let amp := ampRaw.map npClipLo
    let (phaseRaw, g2) := randNormalVec 0 (0.25 + 0.15 * Real.sin theta) S g1
    let phase := phaseRaw.map (fun x => npClip x (-Real.pi) Real.pi)
    let (ts, g3) := randInt 100000 999999 g2
    let (rssi, g4) := randNormal (-38) 4 g3
    let s : CSISample :=
      ⟨some ts, some rssi, some S, amp, some phase, some "walking",
       some "Person walking back and forth"⟩
    let (rest, g5) := generate_walking_aux S n (i + 1) g4
    (s :: rest, g5)

/-- `SyntheticCSIGenerator.generate_walking`: the loop starts at index `0`. -/
noncomputable def generate_walking (S n : ℕ) (g : RNG) : List CSISample × RNG :=
  generate_walking_aux S n 0 g

/-- `SyntheticCSIGenerator.generate_sitting` (lines 172-203): amplitude
`Normal(23.0, 2.2, S)` clipped at `0`, phase `Normal(0, 0.15, S)` (no
clipping), `rssi = Normal(-44, 2)`. -/
noncomputable def generate_sitting (S : ℕ) : ℕ → RNG → List CSISample × RNG
  | 0, g => ([], g)
  | n + 1, g =>
    let (ampRaw, g1) := randNormalVec 23.0 2.2 S g
    let amp := ampRaw.map npClipLo
    let (phase, g2) := randNormalVec 0 0.15 S g1
    let (ts, g3) := randInt 100000 999999 g2
    let (rssi, g4) := randNormal (-44) 2 g3
    let s : CSISample :=
      ⟨some ts, some rssi, some S, amp, some phase, some "sitting",
       some "Person sitting still"⟩
    let (rest, g5) := generate_sitting S n g4
    (s :: rest, g5)

/-- `SyntheticCSIGenerator.generate_standing` (lines 205-235): amplitude
`Normal(24.0, 2.8, S)` clipped at `0`, phase `Normal(0, 0.22, S)` (no
clipping), `rssi = Normal(-43, 2.5)`. -/
noncomputable def generate_standing (S : ℕ) : ℕ → RNG → List CSISample × RNG
  | 0, g => ([], g)
  | n + 1, g =>
    let (ampRaw, g1) := randNormalVec 24.0 2.8 S g
    let amp := ampRaw.map npClipLo
    let (phase, g2) := randNormalVec 0 0.22 S g1
    let (ts, g3) := randInt 100000 999999 g2
    let (rssi, g4) := randNormal (-43) 2.5 g3
    let s : CSISample :=
      ⟨some ts, some rssi, some S, amp, some phase, some "standing",
       some "Person standing still"⟩
    let (rest, g5) := generate_standing S n g4
    (s :: rest, g5)

/-- The `all_samples` list built by `generate_dataset` before the shuffle
(lines 241-260): the six class generators called in order, `k` samples
each, their outputs concatenated. -/
noncomputable def generate_all_classes (S k : ℕ) (g : RNG) : List CSISample × RNG :=
  let (e, g1) := generate_empty_room S k g
  let (p, g2) := generate_person_present S k g1
  let (m, g3) := generate_moving S k g2
  let (w, g4) := generate_walking S k g3
  let (si, g5) := generate_sitting S k g4
  let (st, g6) := generate_standing S k g5
  (e ++ p ++ m ++ w ++ si ++ st, g6)

/-- `np.random.shuffle` modelled as a stream-driven permutation: repeatedly
draw an index into the remaining list, emit that element, and recurse on
the rest.  Any draw-driven permutation is a faithful model of the NumPy
Fisher-Yates shuffle for the properties claimed (order-only change). -/
noncomputable def shuffle : List CSISample → RNG → List CSISample × RNG
  | [], g => ([], g)
  | a :: rest, g =>
    let (z, g1) := RNG.next g
    let j := (⌊z⌋.natAbs) % (rest.length + 1)
    let x := (a :: rest).get ⟨j, by
      simpa using Nat.mod_lt _ (Nat.succ_pos rest.length)⟩
    let (tail, g2) := shuffle ((a :: rest).eraseIdx j) g1
    (x :: tail, g2)
termination_by l => l.length
decreasing_by
  simp [List.length_eraseIdx, Nat.mod_lt _ (Nat.succ_pos rest.length)]

/-- `SyntheticCSIGenerator.generate_dataset` (lines 237-277), restricted to
the `data` part of the returned dataset object: generate all six classes,
`k` samples each, then shuffle the combined list.  The metadata block
(timestamps, label set, flags) carries no claimed content and is omitted. -/
noncomputable def generate_dataset (S k : ℕ) (g : RNG) : List CSISample × RNG :=
  let (all, g1) := generate_all_classes S k g
  shuffle all g1

lemma zscore_length (l : List ℝ) : (zscore l).length = l.length := by
  simp [zscore]

lemma padTruncSpec_length (S : ℕ) (l : List ℝ) : (padTruncSpec S l).length = S := by
  unfold padTruncSpec
  by_cases h : l.length < S
  · simp [h]; omega
  · simp [h]; omega

lemma parse_sample_eq_spec (S : ℕ) (s : CSISample) (h : wfSample s) :
    parse_sample S s =
      some (zscore (padTruncSpec S s.amp) ++
        (padTruncSpec S (s.phase.getD (List.replicate s.amp.length 0))).map
          (fun x => x / Real.pi)) := by
  obtain ⟨hamp, hph⟩ := h
  have hplen : (s.phase.getD (List.replicate s.amp.length 0)).length = s.amp.length := by
    rcases hph with h0 | ⟨p, hp, hlen⟩
    · simp [h0]
    · simp [hp, hlen]
  unfold parse_sample
  by_cases hA : s.amp.length < S
  · have hA2 : (0 : ℤ) ≤ (S : ℤ) - s.amp.length := by omega
    have hP2 : (0 : ℤ) ≤ (S : ℤ) - (s.phase.getD (List.replicate s.amp.length 0)).length := by
      omega
    simp only [hA, if_true, npPad, hA2, if_pos, hP2]
    have e1 : ((S : ℤ) - (s.amp.length : ℤ)).toNat = S - s.amp.length := by omega
    have e2 : ((S : ℤ) - ((s.phase.getD (List.replicate s.amp.length 0)).length : ℤ)).toNat
        = S - (s.phase.getD (List.replicate s.amp.length 0)).length := by omega
    rw [e1, e2]
    unfold padTruncSpec
    rw [if_pos hA, if_pos (by omega : (s.phase.getD (List.replicate s.amp.length 0)).length < S)]
  · simp only [hA, if_false]
    unfold padTruncSpec
    rw [if_neg hA, if_neg (by omega : ¬ (s.phase.getD (List.replicate s.amp.length 0)).length < S)]

lemma parse_sample_wf (S : ℕ) (s : CSISample) (h : wfSample s) :
    ∃ v, parse_sample S s = some v ∧ v.length = 2 * S := by
  refine ⟨_, parse_sample_eq_spec S s h, ?_⟩
  simp [zscore_length, padTruncSpec_length]
  ring

lemma mapOpt_some_spec {α β : Type} (f : α → Option β) :
    ∀ {xs : List α} {ys : List β}, mapOpt f xs = some ys →
      ys.length = xs.length ∧ ∀ y ∈ ys, ∃ x ∈ xs, f x = some y := by
  intro xs
  induction xs with
  | nil => intro ys h; simp [mapOpt] at h; subst h; simp
  | cons x xs ih =>
    intro ys h
    simp only [mapOpt, Option.bind_eq_bind, Option.bind_eq_some] at h
    obtain ⟨y, hy, rest, hrest, hcons⟩ := h
    obtain ⟨hlen, hmem⟩ := ih hrest
    rw [show pure (y :: rest) = some (y :: rest) from rfl, Option.some_inj] at hcons
    subst hcons
    constructor
    · simp [hlen]
    · intro z hz
      rcases List.mem_cons.mp hz with hz | hz
      · exact ⟨x, List.mem_cons_self _ _, hz ▸ hy⟩
      · obtain ⟨x2, hx2, hfx2⟩ := hmem z hz
        exact ⟨x2, List.mem_cons_of_mem _ hx2, hfx2⟩

lemma mapOpt_isSome {α β : Type} (f : α → Option β) :
    ∀ {xs : List α}, (∀ x ∈ xs, (f x).isSome) → ∃ ys, mapOpt f xs = some ys := by
  intro xs
  induction xs with
  | nil => intro _; exact ⟨[], rfl⟩
  | cons x xs ih =>
    intro h
    obtain ⟨y, hy⟩ := Option.isSome_iff_exists.mp (h x (List.mem_cons_self _ _))
    obtain ⟨ys, hys⟩ := ih (fun z hz => h z (List.mem_cons_of_mem _ hz))
    exact ⟨y :: ys, by simp [mapOpt, hy, hys]⟩

lemma slidingWindows_length {α : Type} (W : ℕ) (fs : List α) :
    (slidingWindows W fs).length = fs.length + 1 - W := by
  simp [slidingWindows]

lemma mem_slidingWindows_length {α : Type} {W : ℕ} {fs : List α} {w : List α}
    (hw : w ∈ slidingWindows W fs) : w.length = W := by
  simp only [slidingWindows, List.mem_map, List.mem_range] at hw
  obtain ⟨i, hi, hw⟩ := hw
  subst hw
  simp only [List.length_take, List.length_drop]
  omega

lemma mem_of_mem_slidingWindows {α : Type} {W : ℕ} {fs : List α} {w : List α} {x : α}
    (hw : w ∈ slidingWindows W fs) (hx : x ∈ w) : x ∈ fs := by
  simp only [slidingWindows, List.mem_map, List.mem_range] at hw
  obtain ⟨i, _, hw⟩ := hw
  subst hw
  exact List.mem_of_mem_drop (List.mem_of_mem_take hx)

lemma labelKeys_subset : ∀ {ls : List String} {x : String}, x ∈ labelKeys ls → x ∈ ls := by
  intro ls
  induction ls using labelKeys.induct with
  | case1 => intro x h; simp [labelKeys] at h
  | case2 l rest ih =>
    intro x h
    rw [labelKeys] at h
    rcases List.mem_cons.mp h with h | h
    · exact h ▸ List.mem_cons_self _ _
    · exact List.mem_cons_of_mem _ (List.mem_of_mem_filter (ih h))

lemma labelKeys_replicate (n : ℕ) (l : String) :
    labelKeys (List.replicate (n + 1) l) = [l] := by
  rw [List.replicate_succ, labelKeys]
  have h : (List.replicate n l).filter (fun x => x ≠ l) = [] := by
    apply List.filter_eq_nil_iff.mpr
    intro a ha
    simp [List.eq_of_mem_replicate ha]
  rw [h, labelKeys]

lemma map_snd_zip_replicate (samples : List CSISample) (l : String) :
    (samples.zip (List.replicate samples.length l)).map Prod.snd =
      List.replicate samples.length l := by
  induction samples with
  | nil => rfl
  | cons s rest ih => simpa [List.replicate_succ] using ih

lemma groupByLabel_replicate (samples : List CSISample) (l : String)
    (h : samples ≠ []) :
    groupByLabel (samples.zip (List.replicate samples.length l)) = [(l, samples)] := by
  unfold groupByLabel
  rw [map_snd_zip_replicate]
  obtain ⟨s0, rest, rfl⟩ := List.exists_cons_of_ne_nil h
  rw [show (s0 :: rest).length = rest.length + 1 from rfl, labelKeys_replicate]
  simp only [List.map_cons, List.map_nil, List.cons.injEq, and_true, Prod.mk.injEq, true_and]
  have hfil : ((s0 :: rest).zip (List.replicate (rest.length + 1) l)).filter
      (fun p => p.2 = l) = (s0 :: rest).zip (List.replicate (rest.length + 1) l) := by
    apply List.filter_eq_self.mpr
    intro p hp
    have : p.2 ∈ ((s0 :: rest).zip (List.replicate (rest.length + 1) l)).map Prod.snd :=
      List.mem_map_of_mem _ hp
    rw [show rest.length + 1 = (s0 :: rest).length from rfl, map_snd_zip_replicate] at this
    simpa using List.eq_of_mem_replicate this
  rw [hfil]
  exact List.map_fst_zip _ _ (by simp)

lemma groupByLabel_mem {pairs : List (CSISample × String)} {g : String × List CSISample}
    (hg : g ∈ groupByLabel pairs) : ∀ s ∈ g.2, (s, g.1) ∈ pairs := by
  unfold groupByLabel at hg
  obtain ⟨l, _, rfl⟩ := List.mem_map.mp hg
  intro s hs
  simp only [List.mem_map] at hs
  obtain ⟨p, hp, rfl⟩ := hs
  have h2 := List.of_mem_filter hp
  have : p.2 = l := by simpa using h2
  have hmem := List.mem_of_mem_filter hp
  rwa [show (p.1, l) = p by rw [← this]]

lemma groupByLabel_label_mem {pairs : List (CSISample × String)} {g : String × List CSISample}
    (hg : g ∈ groupByLabel pairs) : g.1 ∈ pairs.map Prod.snd := by
  unfold groupByLabel at hg
  obtain ⟨l, hl, rfl⟩ := List.mem_map.mp hg
  exact labelKeys_subset hl

lemma create_windows_replicate_spec (W S : ℕ) (samples : List CSISample) (l : String)
    (hwf : ∀ s ∈ samples, wfSample s) (hWN : 0 < W ∨ samples ≠ []) :
    ∃ X y, create_windows W S samples (List.replicate samples.length l) = some (X, y) ∧
      X.length = samples.length + 1 - W ∧
      y = List.replicate X.length (label_map l) ∧
      (∀ w ∈ X, w.length = W ∧ ∀ v ∈ w, v.length = 2 * S) := by
  by_cases hnil : samples = []
  · subst hnil
    rcases hWN with hW | hne
    · refine ⟨[], [], ?_, by simp only [List.length_nil]; omega, rfl, by simp⟩
      simp [create_windows, groupByLabel, labelKeys, mapOpt]
    · exact absurd rfl hne
  · have hparse : ∀ s ∈ samples, (parse_sample S s).isSome := by
      intro s hs
      obtain ⟨v, hv, _⟩ := parse_sample_wf S s (hwf s hs)
      simp [hv]
    obtain ⟨fs, hfs⟩ := mapOpt_isSome (parse_sample S) hparse
    obtain ⟨hfslen, hfsmem⟩ := mapOpt_some_spec (parse_sample S) hfs
    refine ⟨slidingWindows W fs, List.replicate (slidingWindows W fs).length (label_map l),
      ?_, ?_, rfl, ?_⟩
    · unfold create_windows
      rw [groupByLabel_replicate samples l hnil]
      simp only [Option.bind_eq_bind]
      rw [show mapOpt (fun g => (mapOpt (parse_sample S) g.2).bind
            (fun features => pure (slidingWindows W features, label_map g.1)))
            [(l, samples)] = some [(slidingWindows W fs, label_map l)] by
        simp [mapOpt, hfs]]
      simp [mapOpt]
    · rw [slidingWindows_length, hfslen]
    · intro w hw
      refine ⟨mem_slidingWindows_length hw, ?_⟩
      intro v hv
      obtain ⟨s, hs, hsv⟩ := hfsmem v (mem_of_mem_slidingWindows hw hv)
      obtain ⟨u, hu, hulen⟩ := parse_sample_wf S s (hwf s hs)
      rw [hu] at hsv
      rw [← Option.some_inj.mp hsv]
      exact hulen

lemma create_windows_inv {W S : ℕ} {samples : List CSISample} {labels : List String}
    {X : List (List (List ℝ))} {y : List ℕ}
    (h : create_windows W S samples labels = some (X, y)) :
    ∃ results, mapOpt (fun g => (mapOpt (parse_sample S) g.2).bind
        (fun features => pure (slidingWindows W features, label_map g.1)))
        (groupByLabel (samples.zip labels)) = some results ∧
      X = (results.map Prod.fst).flatten ∧
      y = (results.map (fun r => List.replicate r.1.length r.2)).flatten := by
  unfold create_windows at h
  simp only [Option.bind_eq_bind, Option.pure_def, Option.bind_eq_some,
    Option.some_inj] at h
  obtain ⟨results, hres, heq⟩ := h
  obtain ⟨h1, h2⟩ := Prod.ext_iff.mp heq
  exact ⟨results, hres, h1.symm, h2.symm⟩

lemma create_windows_no_mixing {W S : ℕ} {samples : List CSISample} {labels : List String}
    {X : List (List (List ℝ))} {y : List ℕ}
    (h : create_windows W S samples labels = some (X, y)) :
    ∀ w ∈ X, ∃ l, ∀ v ∈ w, ∃ s, (s, l) ∈ samples.zip labels ∧ parse_sample S s = some v := by
  obtain ⟨results, hres, hX, _⟩ := create_windows_inv h
  intro w hw
  rw [hX] at hw
  obtain ⟨block, hblock, hwblock⟩ := List.mem_flatten.mp hw
  obtain ⟨r, hr, rfl⟩ := List.mem_map.mp hblock
  obtain ⟨g, hg, hfg⟩ := (mapOpt_some_spec _ hres).2 r hr
  simp only [Option.pure_def, Option.bind_eq_some, Option.some_inj] at hfg
  obtain ⟨fs, hfs, hpure⟩ := hfg
  refine ⟨g.1, ?_⟩
  intro v hv
  have hwin : w ∈ slidingWindows W fs := by
    have hr1 : r.1 = slidingWindows W fs := by rw [← hpure]
    rwa [hr1] at hwblock
  obtain ⟨s, hs, hsv⟩ := (mapOpt_some_spec _ hfs).2 v (mem_of_mem_slidingWindows hwin hv)
  exact ⟨s, groupByLabel_mem hg s hs, hsv⟩

lemma parse_sample_pad_branch (S : ℕ) (s : CSISample) (hA : s.amp.length < S) :
    parse_sample S s =
      if (s.phase.getD (List.replicate s.amp.length 0)).length ≤ S then
        some (zscore (s.amp ++ List.replicate (S - s.amp.length) 0) ++
          ((s.phase.getD (List.replicate s.amp.length 0)) ++
            List.replicate (S - (s.phase.getD (List.replicate s.amp.length 0)).length) 0).map
            (fun x => x / Real.pi))
      else none := by
  unfold parse_sample
  rw [if_pos hA]
  by_cases hP : (s.phase.getD (List.replicate s.amp.length 0)).length ≤ S
  · rw [if_pos hP]
    have h1 : npPad s.amp ((S : ℤ) - s.amp.length) =
        some (s.amp ++ List.replicate (S - s.amp.length) 0) := by
      unfold npPad
      rw [if_pos (by omega : (0 : ℤ) ≤ (S : ℤ) - s.amp.length),
        show ((S : ℤ) - (s.amp.length : ℤ)).toNat = S - s.amp.length by omega]
    have h2 : npPad (s.phase.getD (List.replicate s.amp.length 0))
        ((S : ℤ) - (s.phase.getD (List.replicate s.amp.length 0)).length) =
        some ((s.phase.getD (List.replicate s.amp.length 0)) ++
          List.replicate (S - (s.phase.getD (List.replicate s.amp.length 0)).length) 0) := by
      unfold npPad
      rw [if_pos (by omega : (0 : ℤ) ≤
          (S : ℤ) - (s.phase.getD (List.replicate s.amp.length 0)).length),
        show ((S : ℤ) - ((s.phase.getD (List.replicate s.amp.length 0)).length : ℤ)).toNat
          = S - (s.phase.getD (List.replicate s.amp.length 0)).length by omega]
    rw [h1, h2]
  · rw [if_neg hP]
    have h2 : npPad (s.phase.getD (List.replicate s.amp.length 0))
        ((S : ℤ) - (s.phase.getD (List.replicate s.amp.length 0)).length) = none := by
      unfold npPad
      rw [if_neg (by omega)]
    rw [h2]
    rcases h1 : npPad s.amp ((S : ℤ) - s.amp.length) with _ | v
    · rfl
    · rfl

lemma parse_sample_trunc_branch (S : ℕ) (s : CSISample) (hA : S ≤ s.amp.length) :
    parse_sample S s =
      some (zscore (s.amp.take S) ++
        ((s.phase.getD (List.replicate s.amp.length 0)).take S).map
          (fun x => x / Real.pi)) := by
  unfold parse_sample
  rw [if_neg (by omega)]

/-- C1: for a single-label group of `N` well-formed samples and window size
`0 < W`, `create_windows` succeeds and yields exactly `N - W + 1` windows
when `W ≤ N` and `0` windows when `W > N`, each window of `W` vectors of
length `2S`, with the aligned label-id vector constantly the group label's
id; and in any run of `create_windows`, every vector of every window is the
parse of a sample carrying the window's single label — windows never mix
two labels. -/
theorem create_windows_single_label_claim :
    (∀ (samples : List CSISample) (l : String) (W S : ℕ), 0 < W →
      (∀ s ∈ samples, wfSample s) →
      ∃ X y, create_windows W S samples (List.replicate samples.length l) = some (X, y) ∧
        (W ≤ samples.length → X.length = samples.length - W + 1) ∧
        (samples.length < W → X.length = 0) ∧
        y = List.replicate X.length (label_map l) ∧
        (∀ w ∈ X, w.length = W ∧ ∀ v ∈ w, v.length = 2 * S)) ∧
    (∀ (samples : List CSISample) (labels : List String) (W S : ℕ)
      (X : List (List (List ℝ))) (y : List ℕ),
      create_windows W S samples labels = some (X, y) →
      ∀ w ∈ X, ∃ l, ∀ v ∈ w, ∃ s, (s, l) ∈ samples.zip labels ∧ parse_sample S s = some v) := by
  constructor
  · intro samples l W S hW hwf
    obtain ⟨X, y, h1, h2, h3, h4⟩ :=
      create_windows_replicate_spec W S samples l hwf (Or.inl hW)
    exact ⟨X, y, h1, fun h => by omega, fun h => by omega, h3, h4⟩
  · intro samples labels W S X y h
    exact create_windows_no_mixing h

/-- The concrete sample of the spec's end-to-end example: amplitude of
length 52, label `sitting`. -/
noncomputable def sittingSample : CSISample :=
  ⟨some 123456, some (-44), some 52, List.replicate 52 1, none, some "sitting", none⟩

/-- Witness for C1 at the spec's end-to-end example: 12 samples labelled
`sitting` with amplitudes of length 52 and window size 10 yield a tensor of
shape `(3, 10, 104)` and label-id vector `[4, 4, 4]`. -/
theorem create_windows_single_label_claim_witness :
    ∃ X y, create_windows 10 52 (List.replicate 12 sittingSample)
        (List.replicate 12 "sitting") = some (X, y) ∧
      X.length = 3 ∧ y = [4, 4, 4] ∧
      ∀ w ∈ X, w.length = 10 ∧ ∀ v ∈ w, v.length = 104 := by
  obtain ⟨X, y, h1, h2, h3, h4, h5⟩ :=
    create_windows_single_label_claim.1 (List.replicate 12 sittingSample) "sitting" 10 52
      (by norm_num)
      (by
        intro s hs
        rw [List.eq_of_mem_replicate hs]
        exact ⟨by simp [sittingSample], Or.inl rfl⟩)
  have hlen : X.length = 3 := by
    have := h2 (by simp)
    simpa using this
  refine ⟨X, y, by simpa using h1, hlen, ?_, ?_⟩
  · rw [h4, hlen]
    decide
  · intro w hw
    obtain ⟨ha, hb⟩ := h5 w hw
    exact ⟨ha, fun v hv => by rw [hb v hv]⟩

/-- C2: on a well-formed sample (non-empty amplitude, phase of the same
length when present) `parse_sample` returns the concatenation of the
z-scored pad-or-truncated amplitude and the pad-or-truncated phase scaled
by `1/pi`, where each of the two lists is independently right-padded with
zeros when shorter than `S` and truncated to its first `S` entries when
longer; the output length is exactly `2 * S` for every input length. -/
theorem parse_sample_output_claim (S : ℕ) (sample : CSISample) (h : wfSample sample) :
    parse_sample S sample =
      some (zscore (padTruncSpec S sample.amp) ++
        (padTruncSpec S (sample.phase.getD (List.replicate sample.amp.length 0))).map
          (fun x => x / Real.pi)) ∧
    ∀ v, parse_sample S sample = some v → v.length = 2 * S := by
  refine ⟨parse_sample_eq_spec S sample h, ?_⟩
  intro v hv
  obtain ⟨u, hu, hulen⟩ := parse_sample_wf S sample h
  rw [hu, Option.some_inj] at hv
  rw [← hv]
  exact hulen

/-- Witness for C2 at a boundary input: amplitude of length 3 with `S = 4`
(padding side), phase absent; the output length is `2 * 4 = 8`. -/
theorem parse_sample_output_claim_witness :
    ∃ v, parse_sample 4 ⟨none, none, none, [1, 2, 3], none, none, none⟩ = some v ∧
      v.length = 8 := by
  obtain ⟨heq, hlen⟩ :=
    parse_sample_output_claim 4 ⟨none, none, none, [1, 2, 3], none, none, none⟩
      ⟨by simp, Or.inl rfl⟩
  exact ⟨_, heq, by simpa using hlen _ heq⟩

lemma zscore_replicate_zero (n : ℕ) : zscore (List.replicate n 0) = List.replicate n 0 := by
  unfold zscore
  rw [List.map_replicate]
  congr 1
  have hm : npMean (List.replicate n (0 : ℝ)) = 0 := by
    simp [npMean]
  rw [hm]
  simp

lemma parse_sample_empty_amp_eq (S : ℕ) (s : CSISample)
    (hamp : s.amp = []) (hph : s.phase = none ∨ s.phase = some []) :
    parse_sample S s = some (List.replicate (2 * S) 0) := by
  have hphget : s.phase.getD (List.replicate s.amp.length 0) = [] := by
    rcases hph with h | h
    · simp [h, hamp]
    · simp [h]
  rcases Nat.eq_zero_or_pos S with hS | hS
  · subst hS
    rw [parse_sample_trunc_branch 0 s (Nat.zero_le _)]
    simp [zscore]
  · rw [parse_sample_pad_branch S s (by rw [hamp]; simpa using hS), hphget, hamp]
    rw [if_pos (by simp : ([] : List ℝ).length ≤ S)]
    simp only [List.length_nil, Nat.sub_zero, List.nil_append]
    rw [zscore_replicate_zero, List.map_replicate]
    rw [show (0 : ℝ) / Real.pi = 0 by simp]
    rw [← List.replicate_add, show S + S = 2 * S by omega]

/-- C3 counterexample: invoked directly on a sample with an empty amplitude
(and no phase), `parse_sample` does not reject the sample; the amplitude is
zero-padded to length `S` before the statistics are taken, the `1e-6`
epsilon keeps the division defined, and the call returns the all-zero
vector of length `2 * S = 8` (for `S = 4`). -/
theorem parse_sample_empty_amp_counterexample :
    parse_sample 4 ⟨none, none, none, [], none, none, none⟩ =
      some (List.replicate 8 0) :=
  parse_sample_empty_amp_eq 4 ⟨none, none, none, [], none, none, none⟩ rfl (Or.inl rfl)

/-- C3 (amended): `parse_sample` on a sample whose amplitude is empty (phase
absent or likewise empty) does not fail and produces no NaN: the amplitude
is first zero-padded to length `S`, its mean and standard deviation are then
`0`, the `1e-6` epsilon prevents division by zero, and the result is the
all-zero vector of length `2 * S`. -/
theorem parse_sample_empty_amp_claim (S : ℕ) (s : CSISample)
    (hamp : s.amp = []) (hph : s.phase = none ∨ s.phase = some []) :
    parse_sample S s = some (List.replicate (2 * S) 0) :=
  parse_sample_empty_amp_eq S s hamp hph

/-- Witness for the amended C3 at `S = 4` with an explicitly empty phase. -/
theorem parse_sample_empty_amp_claim_witness :
    parse_sample 4 ⟨none, none, none, [], some [], none, none⟩ =
      some (List.replicate 8 0) :=
  parse_sample_empty_amp_claim 4 ⟨none, none, none, [], some [], none, none⟩ rfl (Or.inr rfl)

/-- C10 (amended): the pad-versus-truncate branch of `parse_sample` is
selected by the amplitude length alone, so a present phase shorter than `S`
with an amplitude of length at least `S` yields an output of length
`S + len(phase)` rather than `2 * S`; with a present phase, the output
exists and has length exactly `2 * S` precisely when amplitude and phase
fall on the same side of `S` — both padded (`len(amp) < S` and
`len(phase) <= S`) or both truncated (`len(amp) >= S` and
`len(phase) >= S`); phase absent or of the amplitude's length is a special
case of this condition. -/
theorem parse_sample_phase_mismatch_claim :
    (∀ (S : ℕ) (sample : CSISample) (p : List ℝ),
      sample.phase = some p → S ≤ sample.amp.length → p.length < S →
      ∃ v, parse_sample S sample = some v ∧ v.length = S + p.length) ∧
    (∀ (S : ℕ) (sample : CSISample) (p : List ℝ),
      sample.phase = some p →
      ((∃ v, parse_sample S sample = some v ∧ v.length = 2 * S) ↔
        (sample.amp.length < S ∧ p.length ≤ S) ∨
        (S ≤ sample.amp.length ∧ S ≤ p.length))) := by
  constructor
  · intro S sample p hp hA hP
    rw [parse_sample_trunc_branch S sample hA]
    refine ⟨_, rfl, ?_⟩
    simp only [List.length_append, zscore_length, List.length_map, List.length_take,
      hp, Option.getD_some]
    omega
  · intro S sample p hp
    by_cases hA : sample.amp.length < S
    · by_cases hP : p.length ≤ S
      · rw [parse_sample_pad_branch S sample hA, hp]
        simp only [Option.getD_some]
        rw [if_pos hP]
        constructor
        · intro _
          exact Or.inl ⟨hA, hP⟩
        · intro _
          refine ⟨_, rfl, ?_⟩
          simp only [List.length_append, zscore_length, List.length_map,
            List.length_replicate]
          omega
      · rw [parse_sample_pad_branch S sample hA, hp]
        simp only [Option.getD_some]
        rw [if_neg hP]
        constructor
        · rintro ⟨v, hv, -⟩
          exact absurd hv (by simp)
        · rintro (⟨-, h⟩ | ⟨h, -⟩)
          · exact absurd h hP
          · omega
    · rw [parse_sample_trunc_branch S sample (by omega), hp]
      simp only [Option.getD_some]
      by_cases hP2 : S ≤ p.length
      · constructor
        · intro _
          exact Or.inr ⟨by omega, hP2⟩
        · intro _
          refine ⟨_, rfl, ?_⟩
          simp only [List.length_append, zscore_length, List.length_map, List.length_take]
          omega
      · constructor
        · rintro ⟨v, hv, hvlen⟩
          rw [Option.some_inj] at hv
          rw [← hv] at hvlen
          simp only [List.length_append, zscore_length, List.length_map,
            List.length_take] at hvlen
          omega
        · rintro (⟨h, -⟩ | ⟨-, h⟩)
          · omega
          · exact absurd h hP2

/-- C10 counterexample to the claim's final clause: with `S = 2`, an
amplitude of length 3 and a present phase of length 2 (different from the
amplitude's length), the output still has length exactly `2 * S = 4` —
so a `2 * S` output does not require the phase to be absent or of the
amplitude's length. -/
theorem parse_sample_phase_mismatch_counterexample :
    ∃ v, parse_sample 2 ⟨none, none, none, [0, 0, 0], some [0, 0], none, none⟩ = some v ∧
      v.length = 2 * 2 ∧
      ([0, 0] : List ℝ).length ≠ ([0, 0, 0] : List ℝ).length := by
  rw [parse_sample_trunc_branch 2 _ (by norm_num)]
  refine ⟨_, rfl, ?_, by simp⟩
  simp [zscore_length]

/-- Witness for C10 at `S = 4`, amplitude length 5, phase length 2: the
output has length `4 + 2 = 6`, not `8`. -/
theorem parse_sample_phase_mismatch_claim_witness :
    ∃ v, parse_sample 4 ⟨none, none, none, [1, 2, 3, 4, 5], some [1, 2], none, none⟩
        = some v ∧ v.length = 6 := by
  obtain ⟨v, hv, hlen⟩ :=
    parse_sample_phase_mismatch_claim.1 4
      ⟨none, none, none, [1, 2, 3, 4, 5], some [1, 2], none, none⟩ [1, 2]
      rfl (by norm_num) (by norm_num)
  exact ⟨v, hv, by simpa using hlen⟩

/-- C4 (amended): neither the `CSIDataPreprocessor` constructor nor
`create_windows` validates `window_size` or `num_subcarriers`; both
degenerate configurations are accepted at call time and produce a result:
`window_size = 0` yields `N + 1` empty windows for a group of `N` samples,
and `num_subcarriers = 0` makes `parse_sample` return the empty feature
vector for every sample. -/
theorem create_windows_no_validation_claim :
    (∀ (samples : List CSISample) (l : String) (S : ℕ),
      samples ≠ [] → (∀ s ∈ samples, wfSample s) →
      ∃ X y, create_windows 0 S samples (List.replicate samples.length l) = some (X, y) ∧
        X.length = samples.length + 1 ∧ ∀ w ∈ X, w = []) ∧
    (∀ sample : CSISample, parse_sample 0 sample = some []) := by
  constructor
  · intro samples l S hne hwf
    obtain ⟨X, y, h1, h2, _, h4⟩ :=
      create_windows_replicate_spec 0 S samples l hwf (Or.inr hne)
    refine ⟨X, y, h1, by omega, ?_⟩
    intro w hw
    exact List.length_eq_zero.mp (h4 w hw).1
  · intro sample
    rw [parse_sample_trunc_branch 0 sample (Nat.zero_le _)]
    simp [zscore]

/-- C4 counterexample: `create_windows` called with `window_size = 0`
(that is, `window_size <= 0`) on two `sitting` samples does not fail — it
returns a result with `2 + 1 = 3` (empty) windows. -/
theorem create_windows_no_validation_counterexample :
    ∃ X y, create_windows 0 52 [sittingSample, sittingSample] ["sitting", "sitting"]
        = some (X, y) ∧ X.length = 3 := by
  obtain ⟨X, y, h1, h2, _, _⟩ :=
    create_windows_replicate_spec 0 52 [sittingSample, sittingSample] "sitting"
      (by
        intro s hs
        rcases List.mem_pair.mp hs with rfl | rfl
        · exact ⟨by simp [sittingSample], Or.inl rfl⟩
        · exact ⟨by simp [sittingSample], Or.inl rfl⟩)
      (Or.inr (by simp))
  exact ⟨X, y, by simpa using h1, by simpa using h2⟩

/-- Witness for the amended C4: one `sitting` sample with `window_size = 0`
yields two empty windows, and `parse_sample` with `S = 0` yields the empty
vector on that sample. -/
theorem create_windows_no_validation_claim_witness :
    (∃ X y, create_windows 0 52 [sittingSample] ["sitting"] = some (X, y) ∧
      X.length = 2 ∧ ∀ w ∈ X, w = []) ∧
    parse_sample 0 sittingSample = some [] := by
  constructor
  · obtain ⟨X, y, h1, h2, h3⟩ :=
      create_windows_no_validation_claim.1 [sittingSample] "sitting" 52
        (by simp)
        (by
          intro s hs
          rw [List.mem_singleton.mp hs]
          exact ⟨by simp [sittingSample], Or.inl rfl⟩)
    exact ⟨X, y, by simpa using h1, by simpa using h2, h3⟩
  · exact create_windows_no_validation_claim.2 sittingSample

/-- C5: the windowing engine maps label strings to class ids through the
fixed table `empty=0, present=1, moving=2, walking=3, sitting=4,
standing=5`, any label outside the table defaulting to id `0`; every id in
the label vector produced by `create_windows` is the `label_map` image of
one of the input labels. -/
theorem label_map_claim :
    label_map "empty" = 0 ∧ label_map "present" = 1 ∧ label_map "moving" = 2 ∧
    label_map "walking" = 3 ∧ label_map "sitting" = 4 ∧ label_map "standing" = 5 ∧
    (∀ l : String,
      l ∉ (["empty", "present", "moving", "walking", "sitting", "standing"] : List String) →
      label_map l = 0) ∧
    (∀ (W S : ℕ) (samples : List CSISample) (labels : List String)
      (X : List (List (List ℝ))) (y : List ℕ),
      create_windows W S samples labels = some (X, y) →
      ∀ c ∈ y, ∃ l ∈ labels, c = label_map l) := by
  refine ⟨rfl, rfl, rfl, rfl, rfl, rfl, ?_, ?_⟩
  · intro l hl
    simp only [List.mem_cons, List.not_mem_nil, or_false, not_or] at hl
    obtain ⟨h1, h2, h3, h4, h5, h6⟩ := hl
    simp [label_map, h1, h2, h3, h4, h5, h6]
  · intro W S samples labels X y h c hc
    obtain ⟨results, hres, -, hy⟩ := create_windows_inv h
    rw [hy] at hc
    obtain ⟨block, hblock, hcblock⟩ := List.mem_flatten.mp hc
    obtain ⟨r, hr, rfl⟩ := List.mem_map.mp hblock
    have hcr : c = r.2 := List.eq_of_mem_replicate hcblock
    obtain ⟨g, hg, hfg⟩ := (mapOpt_some_spec _ hres).2 r hr
    simp only [Option.pure_def, Option.bind_eq_some, Option.some_inj] at hfg
    obtain ⟨fs, -, hpure⟩ := hfg
    have hr2 : r.2 = label_map g.1 := by rw [← hpure]
    have hlab := groupByLabel_label_mem hg
    obtain ⟨p, hp, hpl⟩ := List.mem_map.mp hlab
    have : p.2 ∈ labels := (List.of_mem_zip hp).2
    exact ⟨g.1, hpl ▸ this, by rw [hcr, hr2]⟩

/-- Witness for C5: the label `unknown` is outside the table and maps to
id `0`, by the default clause of the theorem. -/
theorem label_map_claim_witness : label_map "unknown" = 0 :=
  label_map_claim.2.2.2.2.2.2.1 "unknown" (by decide)

lemma perm_get_cons_eraseIdx {α : Type} :
    ∀ (l : List α) (j : ℕ) (h : j < l.length),
      l.Perm (l.get ⟨j, h⟩ :: l.eraseIdx j) := by
  intro l
  induction l with
  | nil => intro j h; simp at h
  | cons a rest ih =>
    intro j h
    cases j with
    | zero => simp
    | succ j =>
      have hj : j < rest.length := by simpa using h
      have h1 := (ih j hj).cons a
      have h2 := List.Perm.swap (rest.get ⟨j, hj⟩) a (rest.eraseIdx j)
      exact h1.trans h2

lemma shuffle_perm_aux :
    ∀ (n : ℕ) (l : List CSISample), l.length ≤ n → ∀ g, ((shuffle l g).1).Perm l := by
  intro n
  induction n with
  | zero =>
    intro l hl g
    rw [List.length_eq_zero.mp (Nat.le_zero.mp hl)]
    simp [shuffle]
  | succ n ih =>
    intro l hl g
    cases l with
    | nil => simp [shuffle]
    | cons a rest =>
      have hj : ⌊g.stream g.idx⌋.natAbs % (rest.length + 1) < (a :: rest).length := by
        simpa using Nat.mod_lt _ (Nat.succ_pos rest.length)
      have step : (shuffle (a :: rest) g).1 =
          (a :: rest).get ⟨⌊g.stream g.idx⌋.natAbs % (rest.length + 1), hj⟩ ::
            (shuffle ((a :: rest).eraseIdx
              (⌊g.stream g.idx⌋.natAbs % (rest.length + 1))) ⟨g.stream, g.idx + 1⟩).1 := by
        rw [shuffle]
        rfl
      rw [step]
      have hlen : ((a :: rest).eraseIdx
          (⌊g.stream g.idx⌋.natAbs % (rest.length + 1))).length ≤ n := by
        have h2 := List.length_eraseIdx_add_one hj
        simp only [List.length_cons] at h2 hl
        omega
      exact ((ih _ hlen _).cons _).trans (perm_get_cons_eraseIdx _ _ hj).symm

lemma shuffle_perm (l : List CSISample) (g : RNG) : ((shuffle l g).1).Perm l :=
  shuffle_perm_aux l.length l le_rfl g

lemma generate_empty_room_spec (S : ℕ) :
    ∀ (n : ℕ) (g : RNG), (generate_empty_room S n g).1.length = n ∧
      ∀ s ∈ (generate_empty_room S n g).1, s.label = some "empty" := by
  intro n
  induction n with
  | zero => intro g; simp [generate_empty_room]
  | succ n ih =>
    intro g
    simp only [generate_empty_room]
    constructor
    · simp [(ih _).1]
    · intro s hs
      rcases List.mem_cons.mp hs with rfl | hs
      · rfl
      · exact (ih _).2 s hs

lemma generate_person_present_spec (S : ℕ) :
    ∀ (n : ℕ) (g : RNG), (generate_person_present S n g).1.length = n ∧
      ∀ s ∈ (generate_person_present S n g).1, s.label = some "present" := by
  intro n
  induction n with
  | zero => intro g; simp [generate_person_present]
  | succ n ih =>
    intro g
    simp only [generate_person_present]
    constructor
    · simp [(ih _).1]
    · intro s hs
      rcases List.mem_cons.mp hs with rfl | hs
      · rfl
      · exact (ih _).2 s hs

lemma generate_sitting_spec (S : ℕ) :
    ∀ (n : ℕ) (g : RNG), (generate_sitting S n g).1.length = n ∧
      ∀ s ∈ (generate_sitting S n g).1, s.label = some "sitting" := by
  intro n
  induction n with
  | zero => intro g; simp [generate_sitting]
  | succ n ih =>
    intro g
    simp only [generate_sitting]
    constructor
    · simp [(ih _).1]
    · intro s hs
      rcases List.mem_cons.mp hs with rfl | hs
      · rfl
      · exact (ih _).2 s hs

lemma generate_standing_spec (S : ℕ) :
    ∀ (n : ℕ) (g : RNG), (generate_standing S n g).1.length = n ∧
      ∀ s ∈ (generate_standing S n g).1, s.label = some "standing" := by
  intro n
  induction n with
  | zero => intro g; simp [generate_standing]
  | succ n ih =>
    intro g
    simp only [generate_standing]
    constructor
    · simp [(ih _).1]
    · intro s hs
      rcases List.mem_cons.mp hs with rfl | hs
      · rfl
      · exact (ih _).2 s hs

lemma npClip_pi_bounds (x : ℝ) :
    -Real.pi ≤ npClip x (-Real.pi) Real.pi ∧ npClip x (-Real.pi) Real.pi ≤ Real.pi := by
  unfold npClip
  constructor
  · exact le_max_left _ _
  · exact max_le (by linarith [Real.pi_pos]) (min_le_right _ _)

lemma generate_moving_aux_spec (S : ℕ) :
    ∀ (n i : ℕ) (offset : ℝ) (g : RNG),
      (generate_moving_aux S n i offset g).1.length = n ∧
      ∀ s ∈ (generate_moving_aux S n i offset g).1,
        s.label = some "moving" ∧
        ∃ p, s.phase = some p ∧ ∀ x ∈ p, -Real.pi ≤ x ∧ x ≤ Real.pi := by
  intro n
  induction n with
  | zero => intro i offset g; simp [generate_moving_aux]
  | succ n ih =>
    intro i offset g
    simp only [generate_moving_aux]
    constructor
    · simp [(ih _ _ _).1]
    · intro s hs
      rcases List.mem_cons.mp hs with rfl | hs
      · refine ⟨rfl, _, rfl, ?_⟩
        intro x hx
        simp only [List.mem_map] at hx
        obtain ⟨y, -, rfl⟩ := hx
        exact npClip_pi_bounds y
      · exact (ih _ _ _).2 s hs

lemma generate_walking_aux_spec (S : ℕ) :
    ∀ (n i : ℕ) (g : RNG),
      (generate_walking_aux S n i g).1.length = n ∧
      ∀ s ∈ (generate_walking_aux S n i g).1,
        s.label = some "walking" ∧
        ∃ p, s.phase = some p ∧ ∀ x ∈ p, -Real.pi ≤ x ∧ x ≤ Real.pi := by
  intro n
  induction n with
  | zero => intro i g; simp [generate_walking_aux]
  | succ n ih =>
    intro i g
    simp only [generate_walking_aux]
    constructor
    · simp [(ih _ _).1]
    · intro s hs
      rcases List.mem_cons.mp hs with rfl | hs
      · refine ⟨rfl, _, rfl, ?_⟩
        intro x hx
        simp only [List.mem_map] at hx
        obtain ⟨y, -, rfl⟩ := hx
        exact npClip_pi_bounds y
      · exact (ih _ _).2 s hs

lemma generate_moving_spec (S n : ℕ) (g : RNG) :
    (generate_moving S n g).1.length = n ∧
      ∀ s ∈ (generate_moving S n g).1, s.label = some "moving" := by
  obtain ⟨h1, h2⟩ := generate_moving_aux_spec S n 0 0 g
  exact ⟨h1, fun s hs => (h2 s hs).1⟩

lemma generate_walking_spec (S n : ℕ) (g : RNG) :
    (generate_walking S n g).1.length = n ∧
      ∀ s ∈ (generate_walking S n g).1, s.label = some "walking" := by
  obtain ⟨h1, h2⟩ := generate_walking_aux_spec S n 0 g
  exact ⟨h1, fun s hs => (h2 s hs).1⟩

lemma countP_label_all {l : List CSISample} {c : String}
    (h : ∀ s ∈ l, s.label = some c) :
    l.countP (fun s => decide (s.label = some c)) = l.length := by
  apply List.countP_eq_length.mpr
  intro s hs
  simp [h s hs]

lemma countP_label_other {l : List CSISample} {c c2 : String} (hne : c ≠ c2)
    (h : ∀ s ∈ l, s.label = some c) :
    l.countP (fun s => decide (s.label = some c2)) = 0 := by
  apply List.countP_eq_zero.mpr
  intro s hs
  simp [h s hs, hne]

lemma generate_all_classes_length (S k : ℕ) (g : RNG) :
    (generate_all_classes S k g).1.length = 6 * k := by
  simp only [generate_all_classes, List.length_append]
  rw [(generate_empty_room_spec S k _).1, (generate_person_present_spec S k _).1,
    (generate_moving_spec S k _).1, (generate_walking_spec S k _).1,
    (generate_sitting_spec S k _).1, (generate_standing_spec S k _).1]
  ring

lemma generate_all_classes_countP (S k : ℕ) (g : RNG) (c : String)
    (hc : c = "empty" ∨ c = "present" ∨ c = "moving" ∨ c = "walking" ∨
      c = "sitting" ∨ c = "standing") :
    (generate_all_classes S k g).1.countP (fun s => decide (s.label = some c)) = k := by
  simp only [generate_all_classes, List.countP_append]
  rcases hc with rfl | rfl | rfl | rfl | rfl | rfl
  · rw [countP_label_all (generate_empty_room_spec S k _).2,
      countP_label_other (by decide) (generate_person_present_spec S k _).2,
      countP_label_other (by decide) (generate_moving_spec S k _).2,
      countP_label_other (by decide) (generate_walking_spec S k _).2,
      countP_label_other (by decide) (generate_sitting_spec S k _).2,
      countP_label_other (by decide) (generate_standing_spec S k _).2,
      (generate_empty_room_spec S k _).1]
    ring
  · rw [countP_label_other (by decide) (generate_empty_room_spec S k _).2,
      countP_label_all (generate_person_present_spec S k _).2,
      countP_label_other (by decide) (generate_moving_spec S k _).2,
      countP_label_other (by decide) (generate_walking_spec S k _).2,
      countP_label_other (by decide) (generate_sitting_spec S k _).2,
      countP_label_other (by decide) (generate_standing_spec S k _).2,
      (generate_person_present_spec S k _).1]
    ring
  · rw [countP_label_other (by decide) (generate_empty_room_spec S k _).2,
      countP_label_other (by decide) (generate_person_present_spec S k _).2,
      countP_label_all (generate_moving_spec S k _).2,
      countP_label_other (by decide) (generate_walking_spec S k _).2,
      countP_label_other (by decide) (generate_sitting_spec S k _).2,
      countP_label_other (by decide) (generate_standing_spec S k _).2,
      (generate_moving_spec S k _).1]
    ring
  · rw [countP_label_other (by decide) (generate_empty_room_spec S k _).2,
      countP_label_other (by decide) (generate_person_present_spec S k _).2,
      countP_label_other (by decide) (generate_moving_spec S k _).2,
      countP_label_all (generate_walking_spec S k _).2,
      countP_label_other (by decide) (generate_sitting_spec S k _).2,
      countP_label_other (by decide) (generate_standing_spec S k _).2,
      (generate_walking_spec S k _).1]
    ring
  · rw [countP_label_other (by decide) (generate_empty_room_spec S k _).2,
      countP_label_other (by decide) (generate_person_present_spec S k _).2,
      countP_label_other (by decide) (generate_moving_spec S k _).2,
      countP_label_other (by decide) (generate_walking_spec S k _).2,
      countP_label_all (generate_sitting_spec S k _).2,
      countP_label_other (by decide) (generate_standing_spec S k _).2,
      (generate_sitting_spec S k _).1]
    ring
  · rw [countP_label_other (by decide) (generate_empty_room_spec S k _).2,
      countP_label_other (by decide) (generate_person_present_spec S k _).2,
      countP_label_other (by decide) (generate_moving_spec S k _).2,
      countP_label_other (by decide) (generate_walking_spec S k _).2,
      countP_label_other (by decide) (generate_sitting_spec S k _).2,
      countP_label_all (generate_standing_spec S k _).2,
      (generate_standing_spec S k _).1]
    ring

/-- C6: for every `k`, `generate_dataset` produces a data sequence of
exactly `6 * k` samples that is a permutation of the concatenated
per-class outputs — the final shuffle changes only the order — and every
one of the six class labels is carried by exactly `k` samples. -/
theorem generate_dataset_claim (S k : ℕ) (g : RNG) :
    (generate_dataset S k g).1.length = 6 * k ∧
    ((generate_dataset S k g).1).Perm (generate_all_classes S k g).1 ∧
    (generate_dataset S k g).1.countP (fun s => decide (s.label = some "empty")) = k ∧
    (generate_dataset S k g).1.countP (fun s => decide (s.label = some "present")) = k ∧
    (generate_dataset S k g).1.countP (fun s => decide (s.label = some "moving")) = k ∧
    (generate_dataset S k g).1.countP (fun s => decide (s.label = some "walking")) = k ∧
    (generate_dataset S k g).1.countP (fun s => decide (s.label = some "sitting")) = k ∧
    (generate_dataset S k g).1.countP (fun s => decide (s.label = some "standing")) = k := by
  have hperm : ((generate_dataset S k g).1).Perm (generate_all_classes S k g).1 :=
    shuffle_perm (generate_all_classes S k g).1 (generate_all_classes S k g).2
  refine ⟨?_, hperm, ?_, ?_, ?_, ?_, ?_, ?_⟩
  · rw [hperm.length_eq, generate_all_classes_length]
  · rw [hperm.countP_eq]
    exact generate_all_classes_countP S k g _ (Or.inl rfl)
  · rw [hperm.countP_eq]
    exact generate_all_classes_countP S k g _ (Or.inr (Or.inl rfl))
  · rw [hperm.countP_eq]
    exact generate_all_classes_countP S k g _ (Or.inr (Or.inr (Or.inl rfl)))
  · rw [hperm.countP_eq]
    exact generate_all_classes_countP S k g _ (Or.inr (Or.inr (Or.inr (Or.inl rfl))))
  · rw [hperm.countP_eq]
    exact generate_all_classes_countP S k g _
      (Or.inr (Or.inr (Or.inr (Or.inr (Or.inl rfl)))))
  · rw [hperm.countP_eq]
    exact generate_all_classes_countP S k g _
      (Or.inr (Or.inr (Or.inr (Or.inr (Or.inr rfl)))))

/-- C7: each per-class generator is a pure function of the pseudo-random
state (the seeded draw stream and its cursor), the requested count and the
subcarrier count: two runs from equal states produce bit-for-bit identical
amplitude, phase and rssi sequences, for every one of the six classes. -/
theorem generators_deterministic_claim (g1 g2 : RNG) (n S : ℕ) (h : g1 = g2) :
    ((generate_empty_room S n g1).1.map CSISample.amp =
        (generate_empty_room S n g2).1.map CSISample.amp ∧
      (generate_empty_room S n g1).1.map CSISample.phase =
        (generate_empty_room S n g2).1.map CSISample.phase ∧
      (generate_empty_room S n g1).1.map CSISample.rssi =
        (generate_empty_room S n g2).1.map CSISample.rssi) ∧
    ((generate_person_present S n g1).1.map CSISample.amp =
        (generate_person_present S n g2).1.map CSISample.amp ∧
      (generate_person_present S n g1).1.map CSISample.phase =
        (generate_person_present S n g2).1.map CSISample.phase ∧
      (generate_person_present S n g1).1.map CSISample.rssi =
        (generate_person_present S n g2).1.map CSISample.rssi) ∧
    ((generate_moving S n g1).1.map CSISample.amp =
        (generate_moving S n g2).1.map CSISample.amp ∧
      (generate_moving S n g1).1.map CSISample.phase =
        (generate_moving S n g2).1.map CSISample.phase ∧
      (generate_moving S n g1).1.map CSISample.rssi =
        (generate_moving S n g2).1.map CSISample.rssi) ∧
    ((generate_walking S n g1).1.map CSISample.amp =
        (generate_walking S n g2).1.map CSISample.amp ∧
      (generate_walking S n g1).1.map CSISample.phase =
        (generate_walking S n g2).1.map CSISample.phase ∧
      (generate_walking S n g1).1.map CSISample.rssi =
        (generate_walking S n g2).1.map CSISample.rssi) ∧
    ((generate_sitting S n g1).1.map CSISample.amp =
        (generate_sitting S n g2).1.map CSISample.amp ∧
      (generate_sitting S n g1).1.map CSISample.phase =
        (generate_sitting S n g2).1.map CSISample.phase ∧
      (generate_sitting S n g1).1.map CSISample.rssi =
        (generate_sitting S n g2).1.map CSISample.rssi) ∧
    ((generate_standing S n g1).1.map CSISample.amp =
        (generate_standing S n g2).1.map CSISample.amp ∧
      (generate_standing S n g1).1.map CSISample.phase =
        (generate_standing S n g2).1.map CSISample.phase ∧
      (generate_standing S n g1).1.map CSISample.rssi =
        (generate_standing S n g2).1.map CSISample.rssi) := by
  subst h
  exact ⟨⟨rfl, rfl, rfl⟩, ⟨rfl, rfl, rfl⟩, ⟨rfl, rfl, rfl⟩, ⟨rfl, rfl, rfl⟩,
    ⟨rfl, rfl, rfl⟩, ⟨rfl, rfl, rfl⟩⟩

/-- Witness for C7: the determinism theorem instantiated at a concrete
state, count and subcarrier count. -/
theorem generators_deterministic_claim_witness :
    (generate_moving 52 3 ⟨fun _ => 0, 0⟩).1.map CSISample.phase =
      (generate_moving 52 3 ⟨fun _ => 0, 0⟩).1.map CSISample.phase :=
  (generators_deterministic_claim ⟨fun _ => 0, 0⟩ ⟨fun _ => 0, 0⟩ 3 52 rfl).2.2.1.2.1

/-- C9 (amended): only the `moving` and `walking` generators clip phases;
every phase value they emit lies in `[-pi, pi]` for every state, count and
subcarrier count. -/
theorem phase_clipping_claim (S n : ℕ) (g : RNG) (s : CSISample)
    (hs : s ∈ (generate_moving S n g).1 ∨ s ∈ (generate_walking S n g).1) :
    ∀ p, s.phase = some p → ∀ x ∈ p, -Real.pi ≤ x ∧ x ≤ Real.pi := by
  intro p hp x hx
  rcases hs with hs | hs
  · obtain ⟨-, p2, hp2, hb⟩ := (generate_moving_aux_spec S n 0 0 g).2 s hs
    rw [hp] at hp2
    exact hb x ((Option.some_inj.mp hp2) ▸ hx)
  · obtain ⟨-, p2, hp2, hb⟩ := (generate_walking_aux_spec S n 0 g).2 s hs
    rw [hp] at hp2
    exact hb x ((Option.some_inj.mp hp2) ▸ hx)

/-- Witness for the amended C9: the sample produced by one step of the
`moving` generator from a concrete state has a phase vector, and every
entry of it lies in `[-pi, pi]`. -/
theorem phase_clipping_claim_witness :
    ∃ s ∈ (generate_moving 2 1 ⟨fun _ => 0, 0⟩).1, ∃ p, s.phase = some p ∧
      ∀ x ∈ p, -Real.pi ≤ x ∧ x ≤ Real.pi := by
  have hlen : (generate_moving 2 1 ⟨fun _ => 0, 0⟩).1.length = 1 :=
    (generate_moving_spec 2 1 ⟨fun _ => 0, 0⟩).1
  obtain ⟨s, hs⟩ := List.exists_mem_of_ne_nil
    (generate_moving 2 1 ⟨fun _ => 0, 0⟩).1 (by
      intro hnil
      rw [hnil] at hlen
      simp at hlen)
  obtain ⟨-, p, hp, -⟩ := (generate_moving_aux_spec 2 1 0 0 ⟨fun _ => 0, 0⟩).2 s hs
  exact ⟨s, hs, p, hp,
    phase_clipping_claim 2 1 ⟨fun _ => 0, 0⟩ s (Or.inl hs) p hp⟩

/-- C9 counterexample: the `empty` generator does not clip phases.  With a
draw stream whose values are `100`, its first sample's phase vector
contains `0 + 0.05 * 100 = 5 > pi`, violating the data model's
`[-pi, pi]` range. -/
theorem phase_range_counterexample :
    ∃ s ∈ (generate_empty_room 1 1 ⟨fun _ => 100, 0⟩).1,
      ∃ p, s.phase = some p ∧ ∃ x ∈ p, Real.pi < x := by
  simp only [generate_empty_room, randNormalVec, randNormal, RNG.next, randInt]
  refine ⟨_, List.mem_cons_self _ _, _, rfl, ?_⟩
  refine ⟨0 + 0.05 * 100, List.mem_singleton.mpr rfl, ?_⟩
  calc Real.pi < 3.15 := Real.pi_lt_d2
    _ < 0 + 0.05 * 100 := by norm_num

/-- The sample of the spec's statistics example: raw amplitude
`[1, 2, 3, 4, 5]`, no phase. -/
noncomputable def statSample : CSISample :=
  ⟨none, some (-44), some 5, [1, 2, 3, 4, 5], none, none, none⟩

lemma npMean_example : npMean [1, 2, 3, 4, 5] = 3 := by
  norm_num [npMean]

lemma npVar_example : npVar [1, 2, 3, 4, 5] = 2 := by
  unfold npVar
  rw [npMean_example]
  norm_num

lemma npSort_example : npSort [1, 2, 3, 4, 5] = [1, 2, 3, 4, 5] := by
  norm_num [npSort, sortedInsert]

/-- C8: `compute_features` works on the raw, non-normalized amplitude and
uses the population (not sample) standard deviation and variance: on
amplitude `[1, 2, 3, 4, 5]` it yields `amp_mean = 3`,
`amp_var = 2` (the sample variance would be `2.5`), `amp_std = sqrt 2`,
`amp_min = 1`, `amp_max = 5`, `amp_range = 4`, `amp_median = 3`; and for
every sample whose phase is absent or empty, the three phase statistics
are `0`. -/
theorem compute_features_claim :
    (compute_features statSample).amp_mean = 3 ∧
    (compute_features statSample).amp_std = Real.sqrt 2 ∧
    (compute_features statSample).amp_var = 2 ∧
    (compute_features statSample).amp_min = 1 ∧
    (compute_features statSample).amp_max = 5 ∧
    (compute_features statSample).amp_range = 4 ∧
    (compute_features statSample).amp_median = 3 ∧
    (∀ s : CSISample, s.phase = none ∨ s.phase = some [] →
      (compute_features s).phase_mean = 0 ∧ (compute_features s).phase_std = 0 ∧
      (compute_features s).phase_var = 0) := by
  have hamp : statSample.amp = [1, 2, 3, 4, 5] := rfl
  refine ⟨?_, ?_, ?_, ?_, ?_, ?_, ?_, ?_⟩
  · show npMean statSample.amp = 3
    rw [hamp, npMean_example]
  · show npStd statSample.amp = Real.sqrt 2
    unfold npStd
    rw [hamp, npVar_example]
  · show npVar statSample.amp = 2
    rw [hamp, npVar_example]
  · show npMin statSample.amp = 1
    rw [hamp]
    norm_num [npMin, min_def]
  · show npMax statSample.amp = 5
    rw [hamp]
    norm_num [npMax, max_def]
  · show npMax statSample.amp - npMin statSample.amp = 4
    rw [hamp]
    norm_num [npMax, npMin, min_def, max_def]
  · show npMedian statSample.amp = 3
    rw [hamp]
    unfold npMedian
    rw [npSort_example]
    norm_num
  · intro s hs
    rcases hs with h | h
    · simp [compute_features, h]
    · simp [compute_features, h]

/-- Witness for C8: the phase clause of the theorem applied to the example
sample (phase absent), together with its concrete amplitude mean. -/
theorem compute_features_claim_witness :
    (compute_features statSample).phase_mean = 0 ∧
    (compute_features statSample).amp_mean = 3 :=
  ⟨(compute_features_claim.2.2.2.2.2.2.2 statSample (Or.inl rfl)).1,
    compute_features_claim.1⟩
